import Mathlib

/-!
Verification development for the audio-book chapter-processing pipeline
(`backend/app/services/translation_service.py`, `tts_service.py`,
`audio_service.py` and the task-registry endpoints).

Texts are embedded as `List Char` (Python `str` is a sequence of code
points, and all the relevant operations — `len`, slicing, `split`,
`strip` — are code-point-wise).  All recursive definitions are
structural (fuel-based where the Python loop is not structurally
recursive, with fuel provably sufficient), so that every definition can
be evaluated by `decide` / `rfl` on concrete inputs.
-/

namespace AudioBook

/-- Python `str.isspace` characters relevant to `str.strip()` (ASCII
whitespace as produced by the pipeline's text handling). -/
def isPySpace (c : Char) : Bool :=
  c = ' ' || c = '\t' || c = '\n' || c = '\r' || c = '\x0b' || c = '\x0c'

/-- Python `str.strip()`: drop leading and trailing whitespace. -/
def pyStrip (l : List Char) : List Char :=
  ((l.dropWhile isPySpace).reverse.dropWhile isPySpace).reverse

/-- Python `text.split('\n\n')` (used by `_split_text_into_chunks` to
split the cleaned chapter text into paragraphs): split on leftmost,
non-overlapping occurrences of the two-character separator. -/
def splitParas : List Char → List (List Char)
  | [] => [[]]
  | '\n' :: '\n' :: rest => [] :: splitParas rest
  | c :: rest =>
    match splitParas rest with
    | [] => [[c]]
    | p :: ps => (c :: p) :: ps

/-- Sentence terminators of the regex class in
`re.split(r'[.!?]+\s+', paragraph)`. -/
def isTermChar (c : Char) : Bool :=
  c = '.' || c = '!' || c = '?'

/-- Attempt to match the separator regex of
`_split_paragraph_by_sentences` at the head of the list: one or more
sentence terminators followed by one or more whitespace characters
(both maximal, as the character classes are disjoint there is no
backtracking).  Returns the remainder after the separator. -/
def matchSentSep (s : List Char) : Option (List Char) :=
  let punct := s.takeWhile isTermChar
  if punct = [] then none
  else
    let r := s.drop punct.length
    let ws := r.takeWhile isPySpace
    if ws = [] then none else some (r.drop ws.length)

/-- Prepend a character to the first part of a split result. -/
def consHead (c : Char) : List (List Char) → List (List Char)
  | [] => [[c]]
  | p :: ps => (c :: p) :: ps

lemma matchSentSep_length_lt {s rem : List Char} (h : matchSentSep s = some rem) :
    rem.length < s.length := by
  unfold matchSentSep at h
  by_cases hp : s.takeWhile isTermChar = []
  · simp [hp] at h
  · simp only [hp, if_false] at h
    by_cases hw : (s.drop (s.takeWhile isTermChar).length).takeWhile isPySpace = []
    · simp [hw] at h
    · simp only [hw, if_false, Option.some.injEq] at h
      subst h
      have h1 : 0 < (s.takeWhile isTermChar).length := by
        cases hq : s.takeWhile isTermChar with
        | nil => exact absurd hq hp
        | cons a l => simp [hq]
      have hs : 0 < s.length := by
        cases s with
        | nil => simp [List.takeWhile] at hp
        | cons a l => simp
      have h3 : (s.drop (s.takeWhile isTermChar).length).length =
          s.length - (s.takeWhile isTermChar).length := List.length_drop ..
      have h4 : ((s.drop (s.takeWhile isTermChar).length).drop
            ((s.drop (s.takeWhile isTermChar).length).takeWhile isPySpace).length).length =
          (s.drop (s.takeWhile isTermChar).length).length -
            ((s.drop (s.takeWhile isTermChar).length).takeWhile isPySpace).length :=
        List.length_drop ..
      omega

/-- Fuel-driven worker for `re.split(r'[.!?]+\s+', paragraph)`.
With fuel at least the length of the input the fuel never runs out. -/
def reSplitGo : Nat → List Char → List (List Char)
  | 0, s => [s]
  | _ + 1, [] => [[]]
  | fuel + 1, c :: rest =>
    match matchSentSep (c :: rest) with
    | some rem => [] :: reSplitGo fuel rem
    | none => consHead c (reSplitGo fuel rest)

/-- Python `re.split(r'[.!?]+\s+', paragraph)`: the sentence list used
by `_split_paragraph_by_sentences`.  Note the separator (terminator run
plus following whitespace) is discarded by the split. -/
def reSplitSentences (s : List Char) : List (List Char) :=
  reSplitGo s.length s

/-- Fuel-driven worker for the forced character slicing
`for i in range(0, len(sentence), chunk_size)`. -/
def forcedSliceGo (L : Nat) : Nat → List Char → List (List Char)
  | _, [] => []
  | 0, s => [s]
  | fuel + 1, s => s.take L :: forcedSliceGo L fuel (s.drop L)

/-- The forced slicing of an over-long sentence at exactly
`chunk_size`-character boundaries (`sentence[i:i+chunk_size]` for
`i in range(0, len(sentence), chunk_size)`); total for `L > 0`. -/
def forcedSlice (L : Nat) (s : List Char) : List (List Char) :=
  forcedSliceGo L s.length s

/-- The paragraph separator `"\n\n"`. -/
def paraSep : List Char := ['\n', '\n']

/-- Accumulate-and-flush loop of `_split_paragraph_by_sentences`:
state is the current accumulated chunk; emitted chunks are returned in
order. -/
def sentenceLoop (L : Nat) : List (List Char) → List Char → List (List Char)
  | [], cur => if cur = [] then [] else [pyStrip cur]
  | s :: ss, cur =>
    if s.length > L then
      (if cur = [] then [] else [pyStrip cur]) ++ forcedSlice L s ++ sentenceLoop L ss []
    else if cur.length + s.length + 1 > L && !(cur = []) then
      pyStrip cur :: sentenceLoop L ss s
    else
      sentenceLoop L ss (if cur = [] then s else cur ++ ' ' :: s)

/-- Python `_split_paragraph_by_sentences(paragraph, chunk_size)`. -/
def splitParagraphBySentences (p : List Char) (L : Nat) : List (List Char) :=
  sentenceLoop L (reSplitSentences p) []

/-- Accumulate-and-flush loop of `_split_text_into_chunks` over the
paragraph list. -/
def paragraphLoop (L : Nat) : List (List Char) → List Char → List (List Char)
  | [], cur => if cur = [] then [] else [pyStrip cur]
  | p :: ps, cur =>
    if p.length > L then
      (if cur = [] then [] else [pyStrip cur]) ++ splitParagraphBySentences p L ++
        paragraphLoop L ps []
    else if cur.length + p.length + 2 > L && !(cur = []) then
      pyStrip cur :: paragraphLoop L ps p
    else
      paragraphLoop L ps (if cur = [] then p else cur ++ paraSep ++ p)

/-- Python `_split_text_into_chunks(text, chunk_size)`: the Segmenter. -/
def splitTextIntoChunks (text : List Char) (L : Nat) : List (List Char) :=
  paragraphLoop L (splitParas text) []

/-! ## Digit-to-Chinese conversion (`_convert_numbers_to_chinese`) -/

/-- The `digit_map` of `_convert_numbers_to_chinese`. -/
def digitChar : Char → Char
  | '0' => '零' | '1' => '一' | '2' => '二' | '3' => '三' | '4' => '四'
  | '5' => '五' | '6' => '六' | '7' => '七' | '8' => '八' | '9' => '九'
  | c => c

/-- Numeric value of a decimal digit string (Python `int(num_str)`). -/
def natOfDigits (s : List Char) : Nat :=
  s.foldl (fun acc c => 10 * acc + (c.toNat - '0'.toNat)) 0

/-- Python `_convert_integer_to_chinese(num_str, digit_map)`: place-value
conversion for values below 1000, digit-by-digit conversion for 4-digit
strings (years) and for anything of 1000 and above that is not 4 digits
long. -/
def convertIntegerToChinese (s : List Char) : List Char :=
  if s = [] || !(s.all Char.isDigit) then s
  else if s.length = 4 then s.map digitChar
  else
    let num := natOfDigits s
    if num = 0 then ['零']
    else if num < 10 then [digitChar (Char.ofNat ('0'.toNat + num))]
    else if num < 100 then
      let tens := num / 10
      let ones := num % 10
      if ones = 0 then [digitChar (Char.ofNat ('0'.toNat + tens)), '十']
      else if tens = 1 then '十' :: [digitChar (Char.ofNat ('0'.toNat + ones))]
      else [digitChar (Char.ofNat ('0'.toNat + tens)), '十',
            digitChar (Char.ofNat ('0'.toNat + ones))]
    else if num < 1000 then
      let hundreds := num / 100
      let rem := num % 100
      let result := [digitChar (Char.ofNat ('0'.toNat + hundreds)), '百']
      if rem = 0 then result
      else if rem < 10 then result ++ ['零', digitChar (Char.ofNat ('0'.toNat + rem))]
      else
        let tens := rem / 10
        let ones := rem % 10
        if tens = 0 then result ++ ['零', digitChar (Char.ofNat ('0'.toNat + ones))]
        else if ones = 0 then result ++ [digitChar (Char.ofNat ('0'.toNat + tens)), '十']
        else result ++ [digitChar (Char.ofNat ('0'.toNat + tens)), '十',
                        digitChar (Char.ofNat ('0'.toNat + ones))]
    else s.map digitChar

/-- Python `number_to_chinese(num_str)` (inner helper of
`_convert_numbers_to_chinese`): dotted version numbers (more than one
dot) are converted component-wise and joined with 点; plain decimals
become integer part, 点, then digit-by-digit decimal part; plain
integers go through `convertIntegerToChinese`. -/
def numberToChinese (s : List Char) : List Char :=
  if 1 < s.count '.' then
    List.intercalate ['点']
      ((s.splitOn '.').map fun part =>
        if part ≠ [] && part.all Char.isDigit then convertIntegerToChinese part else part)
  else if s.count '.' = 1 then
    let intPart := s.takeWhile (· ≠ '.')
    let decPart := (s.dropWhile (· ≠ '.')).drop 1
    convertIntegerToChinese intPart ++ '点' :: decPart.map digitChar
  else convertIntegerToChinese s

/-- Word characters for Python's Unicode `\b` word boundary, restricted
to the character repertoire this pipeline handles: ASCII alphanumerics,
underscore, and CJK unified ideographs (which are `\w` in Python's
Unicode regex mode); CJK punctuation is not a word character. -/
def isWordChar (c : Char) : Bool :=
  c.isAlphanum || c = '_' || (0x4E00 ≤ c.toNat && c.toNat ≤ 0x9FFF)

/-- Parse the `(?:\.\d+)*` groups of the numeric-literal regex: a list
of groups, each of the form `'.' :: digits`, plus the remaining text. -/
def parseDotGroups : Nat → List Char → List (List Char) × List Char
  | 0, s => ([], s)
  | fuel + 1, s =>
    match s with
    | '.' :: c :: rest =>
      if c.isDigit then
        let ds := (c :: rest).takeWhile Char.isDigit
        let (gs, r) := parseDotGroups fuel ((c :: rest).drop ds.length)
        (('.' :: ds) :: gs, r)
      else ([], s)
    | _ => ([], s)

/-- Match the regex `\b\d+(?:\.\d+)*\b` at the head of `s` (the caller
guarantees the left word boundary).  Greedy matching with the single
backtracking step Python's engine performs: when the trailing `\b`
fails (next char is a word character, necessarily a letter/underscore),
the last dot group is given back, after which the match ends before a
dot and the boundary holds; with no group to give back there is no
match.  Returns the matched literal and the rest. -/
def matchNumberLiteral (s : List Char) : Option (List Char × List Char) :=
  let ds := s.takeWhile Char.isDigit
  if ds = [] then none
  else
    let (gs, r) := parseDotGroups s.length (s.drop ds.length)
    match r with
    | [] => some (ds ++ gs.flatten, [])
    | c :: _ =>
      if !isWordChar c then some (ds ++ gs.flatten, r)
      else
        match gs.getLast? with
        | some glast => some (ds ++ gs.dropLast.flatten, glast ++ r)
        | none => none

/-- Fuel-driven scanner of `re.sub(r'\b\d+(?:\.\d+)*\b', replace_number,
text)`: walk the text tracking whether the previous character was a word
character; at a left word boundary before a digit, match the numeric
literal, replace it via `numberToChinese` and resume after it.  A fuel
of the text length is sufficient since every step consumes at least one
character. -/
def convGo : Nat → Bool → List Char → List Char
  | 0, _, s => s
  | fuel + 1, prevWord, s =>
    match s with
    | [] => []
    | c :: rest =>
      if c.isDigit && !prevWord then
        match matchNumberLiteral (c :: rest) with
        | some (m, r) => numberToChinese m ++ convGo fuel true r
        | none => c :: convGo fuel true rest
      else c :: convGo fuel (isWordChar c) rest

/-- Python `_convert_numbers_to_chinese(text)`: rewrite every numeric
literal matched by `\b\d+(?:\.\d+)*\b` through `numberToChinese`. -/
def convertNumbersToChinese (s : List Char) : List Char :=
  convGo s.length false s

/-! ## The Retrying Remote Caller (`_translate_with_siliconflow`) -/

/-- Does the pattern occur at the head of the text? -/
def beginsWith : List Char → List Char → Bool
  | [], _ => true
  | _ :: _, [] => false
  | a :: as, b :: bs => a = b && beginsWith as bs

/-- Python `needle in hay` on strings: substring containment. -/
def containsSub (needle hay : List Char) : Bool :=
  hay.tails.any fun t => beginsWith needle t

/-- The parse of the provider's JSON reply as `_translate_with_siliconflow`
inspects it: either the `choices` array is missing or empty, or
`choices[0]` lacks `message`/`content`, or a content string is present. -/
inductive RespBody where
  | noChoices : RespBody
  | noMessageContent : RespBody
  | content : List Char → RespBody

/-- The observable outcome of one HTTP attempt against the translation
provider: a response (status code, parsed body, error text used in
messages) or a raised `httpx.RequestError` carrying `str(e)`. -/
inductive AttemptOutcome where
  | response : Nat → RespBody → String → AttemptOutcome
  | requestError : String → AttemptOutcome

/-- Python `"timeout" in str(e).lower() or "readtimeout" in str(e).lower()`
(the second disjunct is subsumed by the first). -/
def isTimeoutMsg (msg : String) : Bool :=
  containsSub "timeout".data (msg.data.map Char.toLower)

/-- The `max_retries = 3` constant of `_translate_with_siliconflow`. -/
def maxRetries : Nat := 3

/-- One while-loop execution of `_translate_with_siliconflow`, driven by
the outcome of each attempt (`att i` is the outcome of the i-th HTTP
attempt, 0-based).  `fuel` is the number of loop iterations still
allowed (`maxRetries - retry_count`), `r` the current `retry_count`,
`i` the number of attempts already made.  Returns the result
(`Except errorMessage translatedText`) together with the total number
of attempts performed.  Error strings reproduce the code's messages
(the two malformed-body messages omit the response payload the code
interpolates): exceptions raised inside the `try` block other than
`httpx.RequestError` are re-raised wrapped in `翻译处理失败: `, while
errors raised from the `except httpx.RequestError` handler propagate
unwrapped. -/
def siliconflowGo (att : Nat → AttemptOutcome) (targetZh : Bool) :
    Nat → Nat → Nat → Except String (List Char) × Nat
  | 0, _, i => (.error ("翻译请求失败，已达到最大重试次数: " ++ toString maxRetries), i)
  | fuel + 1, r, i =>
    match att i with
    | .response status body text =>
      if status ≠ 200 then
        if 500 ≤ status && r + 1 < maxRetries then
          siliconflowGo att targetZh fuel (r + 1) (i + 1)
        else
          (.error ("翻译处理失败: 硅基流动 API 请求失败: " ++ toString status ++ " - " ++ text),
           i + 1)
      else
        match body with
        | .noChoices => (.error "翻译处理失败: API响应格式错误", i + 1)
        | .noMessageContent => (.error "翻译处理失败: API响应消息格式错误", i + 1)
        | .content raw =>
          let stripped := pyStrip raw
          if stripped = [] then (.error "翻译处理失败: 翻译结果为空", i + 1)
          else if targetZh then (.ok (convertNumbersToChinese stripped), i + 1)
          else (.ok stripped, i + 1)
    | .requestError msg =>
      if r + 1 < maxRetries && isTimeoutMsg msg then
        siliconflowGo att targetZh fuel (r + 1) (i + 1)
      else if maxRetries ≤ r + 1 then
        (.error ("网络请求失败，已重试" ++ toString maxRetries ++ "次: " ++ msg), i + 1)
      else
        (.error ("网络请求失败: " ++ msg), i + 1)

/-- Python `_translate_with_siliconflow(text, source_lang, target_lang,
model)`, abstracted over the per-attempt network outcomes; the returned
`Nat` is the number of attempts performed. -/
def translateWithSiliconflow (att : Nat → AttemptOutcome) (targetZh : Bool) :
    Except String (List Char) × Nat :=
  siliconflowGo att targetZh maxRetries 0 0

/-- Python `translate(...)`: delegates to `_translate_with_siliconflow`
and wraps any raised error in `翻译失败: `. -/
def translate (att : Nat → AttemptOutcome) (targetZh : Bool) :
    Except String (List Char) × Nat :=
  match translateWithSiliconflow att targetZh with
  | (.ok t, n) => (.ok t, n)
  | (.error e, n) => (.error ("翻译失败: " ++ e), n)

/-! ## Task records and the chapter-translation orchestrator
(`_process_chapter_translation`) -/

/-- `TaskStatus` of `app/models/schemas.py`. -/
inductive TaskStatus where
  | pending : TaskStatus
  | inProgress : TaskStatus
  | completed : TaskStatus
  | failed : TaskStatus
deriving DecidableEq

/-- The mutable fields of a `TranslationTask` / `AudioTask` record the
claims are about: lifecycle status, fractional progress, error message
(set only by the failure handler) and completion timestamp (modelled as
`Option Unit`: set or unset). -/
structure TaskState where
  status : TaskStatus
  progress : ℚ
  errorMessage : Option String
  completedAt : Option Unit
deriving DecidableEq

/-- The observable outcome of one chapter job: the ordered sequence of
task-record snapshots (one per mutating statement block of the job:
creation, start, each per-chunk progress update, and the terminal
transition), the content handed to the persistence sink (`none` when
nothing was persisted), and the number of per-chunk remote calls
made. -/
structure JobTrace where
  states : List TaskState
  saved : Option (List Char)
  calls : Nat
deriving DecidableEq

/-- The chunk loop of `_process_chapter_translation`: for each chunk in
order, call `translate` (chunk `j`'s attempts are `net j`), append the
result and set `task.progress = (i + 1) / total_chunks`.  Returns the
progress snapshots written during the loop, the last progress value
written (or the entry value `p` if none was), the translated chunks or
the first error, and the number of `translate` calls made. -/
def chunkLoop (net : Nat → Nat → AttemptOutcome) (n : Nat) :
    List (List Char) → Nat → ℚ → List ℚ × ℚ × Except String (List (List Char)) × Nat
  | [], _, p => ([], p, .ok [], 0)
  | _ :: cs, i, p =>
    match translate (net i) true with
    | (.ok t, _) =>
      let pNew : ℚ := (i + 1 : ℚ) / (n : ℚ)
      let (ps, pLast, res, m) := chunkLoop net n cs (i + 1) pNew
      (pNew :: ps, pLast, (res.map fun ts => t :: ts), m + 1)
    | (.error e, _) => ([], p, .error e, 1)

/-- Python `_process_chapter_translation(task_id, book_id, chapter_id,
model)` as a trace semantics.  The input is the chapter text after
HTML cleaning (`_clean_html_content` is a collaborator upstream of the
claims); `net j i` is the outcome of attempt `i` of chunk `j`'s remote
call; `saveError = some e` means the persistence write
(`_save_translation`) raises `e`.  Snapshots: the Pending record
created by `translate_chapter`, the InProgress transition, one per
chunk-progress update, and the terminal transition; on any exception
the handler marks the task Failed with `str(e)` and sets
`completed_at`. -/
def processChapterTranslation (cleanContent : List Char) (L : Nat)
    (net : Nat → Nat → AttemptOutcome) (saveError : Option String) : JobTrace :=
  let chunks := splitTextIntoChunks cleanContent L
  let n := chunks.length
  let (ps, pLast, res, calls) := chunkLoop net n chunks 0 0
  let base := TaskState.mk .pending 0 none none ::
    TaskState.mk .inProgress 0 none none ::
    ps.map fun p => TaskState.mk .inProgress p none none
  match res with
  | .error e =>
    JobTrace.mk (base ++ [TaskState.mk .failed pLast (some e) (some ())]) none calls
  | .ok texts =>
    let full := List.intercalate paraSep texts
    match saveError with
    | none =>
      JobTrace.mk (base ++ [TaskState.mk .completed 1 none (some ())]) (some full) calls
    | some e =>
      JobTrace.mk (base ++ [TaskState.mk .failed pLast (some e) (some ())]) none calls

/-! ## The chapter-audio orchestrator
(`_process_chapter_audio_generation`) -/

/-- Python `_split_text_for_tts(text, max_length=1000)`: split the
translated text on 。, strip each sentence, skip empty ones, and
accumulate sentences (re-joined and terminated with 。) into segments
of at most `maxLength` characters. -/
def ttsLoop (maxLength : Nat) : List (List Char) → List Char → List (List Char)
  | [], cur => if cur = [] then [] else [cur ++ ['。']]
  | s0 :: ss, cur =>
    let s := pyStrip s0
    if s = [] then ttsLoop maxLength ss cur
    else if cur.length + s.length > maxLength && !(cur = []) then
      (cur ++ ['。']) :: ttsLoop maxLength ss s
    else
      ttsLoop maxLength ss (if cur = [] then s else cur ++ '。' :: s)

/-- Python `_split_text_for_tts` with its default `max_length = 1000`. -/
def splitTextForTts (text : List Char) : List (List Char) :=
  ttsLoop 1000 (text.splitOn '。') []

/-- The segment loop of `_process_chapter_audio_generation`: per
segment `i`, `synth i` is the outcome of the `text_to_speech` call
(already wrapped in `TTS合成失败: ` by that function); on success the
task progress becomes `(i + 1) / totalSegments * 0.8`. -/
def segmentLoop (synth : Nat → Except String Unit) (n : Nat) :
    List (List Char) → Nat → ℚ → List ℚ × ℚ × Option String × Nat
  | [], _, p => ([], p, none, 0)
  | _ :: ss, i, p =>
    match synth i with
    | .ok _ =>
      let pNew : ℚ := (i + 1 : ℚ) / (n : ℚ) * (4 / 5 : ℚ)
      let (ps, pLast, err, m) := segmentLoop synth n ss (i + 1) pNew
      (pNew :: ps, pLast, err, m + 1)
    | .error e => ([], p, some e, 1)

/-- Python `_process_chapter_audio_generation(task_id, book_id,
chapter_id, translation_id)` as a trace semantics.  `translation` is
the stored chapter translation (`none` when the translation file does
not exist); `synth i` the outcome of the i-th `text_to_speech` call;
`mergeError` a raised error of `_merge_audio_segments`.  Faithful to
the code, the failure handler sets only `status` and `error_message` —
it does not set `completed_at`. -/
def processChapterAudioGeneration (chapterId : String)
    (translation : Option (List Char)) (synth : Nat → Except String Unit)
    (mergeError : Option String) : List TaskState :=
  let base := [TaskState.mk .pending 0 none none, TaskState.mk .inProgress 0 none none]
  match translation with
  | none =>
    base ++ [TaskState.mk .failed 0 (some ("找不到章节 " ++ chapterId ++ " 的翻译内容")) none]
  | some content =>
    if pyStrip content = [] then
      base ++ [TaskState.mk .failed 0 (some ("章节 " ++ chapterId ++ " 的翻译内容为空")) none]
    else
      let segments := splitTextForTts content
      let n := segments.length
      let (ps, pLast, err, _) := segmentLoop synth n segments 0 0
      let mid := base ++ ps.map fun p => TaskState.mk .inProgress p none none
      match err with
      | some e => mid ++ [TaskState.mk .failed pLast (some e) none]
      | none =>
        match mergeError with
        | some e => mid ++ [TaskState.mk .failed pLast (some e) none]
        | none => mid ++ [TaskState.mk .completed 1 none (some ())]

/-! ## Book-level audio merge (`audio_service.py`)

Audio segments are modelled by their durations in milliseconds;
`pydub` concatenation is additive in duration and
`AudioSegment.silent(duration=2000)` has duration 2000 ms. -/

/-- Python `_merge_multiple_audio_files(audio_files, output_filename)`,
duration semantics: load the first file, then fold the rest with a 2 s
silence before each; an empty list raises. -/
def mergeMultipleAudioFiles (durations : List Nat) : Except String Nat :=
  match durations with
  | [] => .error "没有音频文件可合并"
  | d :: rest => .ok (rest.foldl (fun acc di => acc + 2000 + di) d)

/-- The per-chapter collection loop of `merge_book_audio`: each chapter
either has a stored audio artifact of known duration or is missing
(then the whole merge aborts naming the chapter); `total_duration`
accumulates the bare chapter durations. -/
def collectChapterAudio : List (String × Option Nat) → Except String (List Nat × Nat)
  | [] => .ok ([], 0)
  | (cid, none) :: _ => .error ("章节 " ++ cid ++ " 的音频文件不存在")
  | (_, some d) :: rest =>
    match collectChapterAudio rest with
    | .error e => .error e
    | .ok (ds, total) => .ok (d :: ds, total + d)

/-- Python `merge_book_audio(book_id, chapter_ids)`: returns the merged
artifact's duration together with the `total_duration` value persisted
in the book metadata by `_save_book_metadata`. -/
def mergeBookAudio (chapters : List (String × Option Nat)) : Except String (Nat × Nat) :=
  match collectChapterAudio chapters with
  | .error e => .error ("合并音频失败: " ++ e)
  | .ok (ds, total) =>
    match mergeMultipleAudioFiles ds with
    | .error e => .error ("合并音频失败: " ++ e)
    | .ok merged => .ok (merged, total)

/-! ## `text_to_speech` failure cleanup (`tts_service.py`) -/

/-- TTS provider configuration as `text_to_speech` dispatches on it:
`settings.tts_provider == "f5tts"`, else a configured Azure client,
else nothing. -/
inductive TtsProvider where
  | f5tts : TtsProvider
  | azure : TtsProvider
  | unconfigured : TtsProvider

/-- Behaviour of one synthesis backend call with respect to the chosen
output path: success writes the file; a failure may happen before
anything was written or leave a partial file behind. -/
inductive SynthBehavior where
  | ok : SynthBehavior
  | failBeforeWrite : String → SynthBehavior
  | failAfterWrite : String → SynthBehavior

/-- The file system as the set of paths that exist, modelled as a list
with one entry per existing path; `os.remove(p)` makes `p` not exist. -/
def fsRemove (fs : List String) (p : String) : List String :=
  fs.filter fun q => q ≠ p

/-- Python `text_to_speech(...)` restricted to its file-system effect
on the generated output path: dispatch on the provider, run the
synthesis, and on any raised error delete the output file if it exists
before re-raising the error wrapped in `TTS合成失败: `.  Returns the
call result and the resulting file system. -/
def textToSpeech (provider : TtsProvider) (behavior : SynthBehavior)
    (fs : List String) (audioPath : String) : Except String String × List String :=
  let attempt : Except String Unit × List String :=
    match provider with
    | .unconfigured => (.error "未配置任何TTS服务", fs)
    | _ =>
      match behavior with
      | .ok => (.ok (), audioPath :: fsRemove fs audioPath)
      | .failBeforeWrite e => (.error e, fs)
      | .failAfterWrite e => (.error e, audioPath :: fsRemove fs audioPath)
  match attempt with
  | (.ok _, fs1) => (.ok audioPath, fs1)
  | (.error e, fs1) => (.error ("TTS合成失败: " ++ e), fsRemove fs1 audioPath)

/-! ## Task-registry cleanup -/

/-- A task record as the registry cleanup sees it: lifecycle status and
the completion timestamp (in hours; `none` while non-terminal). -/
structure RegTask where
  status : TaskStatus
  completedAt : Option ℚ
deriving DecidableEq

/-- Modelled from the spec: the removal condition of
`cleanup(maxAgeHours) → removedCount`
(`TranslationService.cleanup_completed_tasks`, invoked by the
`/tasks/cleanup` endpoint, is absent from the service class in the
source tree; only its caller exists).  Per spec §4.3, cleanup removes
exactly the tasks in a terminal state (Completed/Failed) whose age,
measured from completion time, exceeds the threshold; Pending and
InProgress tasks are never removed. -/
def removable (now maxAgeHours : ℚ) (t : RegTask) : Bool :=
  (t.status = TaskStatus.completed || t.status = TaskStatus.failed) &&
    match t.completedAt with
    | some doneAt => decide (maxAgeHours < now - doneAt)
    | none => false

/-- Modelled from the spec: removal loop of `cleanup(maxAgeHours)` over
the registry, removing exactly the `removable` tasks and counting
them. -/
def cleanupCompletedTasks (now maxAgeHours : ℚ) : List RegTask → List RegTask × Nat
  | [] => ([], 0)
  | t :: ts =>
    let (kept, c) := cleanupCompletedTasks now maxAgeHours ts
    if removable now maxAgeHours t then (kept, c + 1) else (t :: kept, c)

/-! ## Spec-side definitions

These two definitions follow the words of the specification and the
claims, not the source; they exist to be compared against the
source-derived definitions above. -/

/-- Chinese digit for a value in 0..9. -/
def pvDigit (n : Nat) : Char :=
  digitChar (Char.ofNat ('0'.toNat + n))

/-- Place-value words for 1..99 in a non-leading position (after a
higher unit the tens digit is always spoken, e.g. 110 = 一百一十). -/
def pvInner2 (n : Nat) : List Char :=
  if n < 10 then [pvDigit n]
  else pvDigit (n / 10) :: '十' :: (if n % 10 = 0 then [] else [pvDigit (n % 10)])

/-- Place-value words for 100..999. -/
def pvHundreds (n : Nat) : List Char :=
  pvDigit (n / 100) :: '百' ::
    (if n % 100 = 0 then []
     else if n % 100 < 10 then '零' :: [pvDigit (n % 100)]
     else pvInner2 (n % 100))

/-- Place-value words for 1000..9999. -/
def pvThousands (n : Nat) : List Char :=
  pvDigit (n / 1000) :: '千' ::
    (if n % 1000 = 0 then []
     else if n % 1000 < 100 then '零' :: pvInner2 (n % 1000)
     else pvHundreds (n % 1000))

/-- The claim's `Chinese place-value expansion` of an integer, written
out canonically for values below 100000 (zero runs collapse to a
single 零, a leading 10..19 is spoken without the 一). -/
def chinesePlaceValueSpec (n : Nat) : List Char :=
  if n = 0 then ['零']
  else if n < 10 then [pvDigit n]
  else if n < 20 then '十' :: (if n % 10 = 0 then [] else [pvDigit (n % 10)])
  else if n < 100 then pvInner2 n
  else if n < 1000 then pvHundreds n
  else if n < 10000 then pvThousands n
  else
    pvDigit (n / 10000) :: '万' ::
      (if n % 10000 = 0 then []
       else if n % 10000 < 1000 then
         '零' :: (if n % 10000 < 100 then pvInner2 (n % 10000) else pvHundreds (n % 10000))
       else pvThousands (n % 10000))

/-- Fuel-driven worker for `embedsWithGaps`; a fuel of
`chunks.length + text.length + 1` is sufficient since every recursive
step shrinks the chunk list or the text. -/
def embedsGo : Nat → List (List Char) → List Char → Bool
  | _, [], _ => true
  | 0, _ :: _, _ => false
  | fuel + 1, c :: cs, t =>
    (beginsWith c t && embedsGo fuel cs (t.drop c.length)) ||
      (match t with
       | [] => false
       | _ :: t2 => embedsGo fuel (c :: cs) t2)

/-- The claim's reassembly property, stated as liberally as possible:
`embedsWithGaps chunks text` holds iff `text` can be written as
`gap₀ ++ chunk₀ ++ gap₁ ++ chunk₁ ++ … ++ gapₙ` for some arbitrary
(not even separator-restricted) gap strings — a necessary condition
for any reinsertion of the original separators between the chunks to
reproduce `text`. -/
def embedsWithGaps (chunks : List (List Char)) (text : List Char) : Bool :=
  embedsGo (chunks.length + text.length + 1) chunks text

/-! ## Lemmas about the Segmenter -/

lemma length_dropWhile_le (p : Char → Bool) (l : List Char) :
    (l.dropWhile p).length ≤ l.length := by
  induction l with
  | nil => simp
  | cons a t ih =>
    by_cases h : p a
    · rw [List.dropWhile_cons]
      simp only [h, if_true, List.length_cons]
      omega
    · rw [List.dropWhile_cons]
      simp [h]

lemma pyStrip_length_le (l : List Char) : (pyStrip l).length ≤ l.length := by
  unfold pyStrip
  calc ((l.dropWhile isPySpace).reverse.dropWhile isPySpace).reverse.length
      = ((l.dropWhile isPySpace).reverse.dropWhile isPySpace).length := by
        rw [List.length_reverse]
    _ ≤ (l.dropWhile isPySpace).reverse.length := length_dropWhile_le ..
    _ = (l.dropWhile isPySpace).length := by rw [List.length_reverse]
    _ ≤ l.length := length_dropWhile_le ..

lemma forcedSliceGo_nil_iff (L fuel : Nat) (s : List Char) :
    forcedSliceGo L fuel s = [] ↔ s = [] := by
  constructor
  · intro h
    match fuel, s with
    | _, [] => rfl
    | 0, c :: t => simp [forcedSliceGo] at h
    | f + 1, c :: t => simp [forcedSliceGo] at h
  · intro h
    subst h
    match fuel with
    | 0 => rfl
    | f + 1 => rfl

lemma forcedSliceGo_length_le (L : Nat) (hL : 0 < L) :
    ∀ fuel s, s.length ≤ fuel → ∀ c ∈ forcedSliceGo L fuel s, c.length ≤ L := by
  intro fuel
  induction fuel with
  | zero =>
    intro s hs c hc
    have : s = [] := List.length_eq_zero.mp (Nat.le_zero.mp hs)
    subst this
    simp [forcedSliceGo] at hc
  | succ f ih =>
    intro s hs c hc
    match s with
    | [] => simp [forcedSliceGo] at hc
    | a :: t =>
      simp only [forcedSliceGo, List.mem_cons] at hc
      rcases hc with h | h
      · subst h
        rw [List.length_take]
        exact Nat.min_le_left _ _
      · refine ih ((a :: t).drop L) ?_ c h
        have hd := List.length_drop L (a :: t)
        have hc1 : (a :: t).length = t.length + 1 := List.length_cons a t
        omega

lemma forcedSliceGo_dropLast_eq (L : Nat) (hL : 0 < L) :
    ∀ fuel s, s.length ≤ fuel →
      ∀ c ∈ (forcedSliceGo L fuel s).dropLast, c.length = L := by
  intro fuel
  induction fuel with
  | zero =>
    intro s hs c hc
    have : s = [] := List.length_eq_zero.mp (Nat.le_zero.mp hs)
    subst this
    simp [forcedSliceGo] at hc
  | succ f ih =>
    intro s hs c hc
    match s with
    | [] => simp [forcedSliceGo] at hc
    | a :: t =>
      simp only [forcedSliceGo] at hc
      by_cases hrest : forcedSliceGo L f ((a :: t).drop L) = []
      · rw [hrest] at hc
        simp at hc
      · rw [List.dropLast_cons_of_ne_nil hrest, List.mem_cons] at hc
        have hlen : L < (a :: t).length := by
          by_contra hle
          push_neg at hle
          have : (a :: t).drop L = [] := List.drop_eq_nil_of_le hle
          rw [this] at hrest
          exact hrest ((forcedSliceGo_nil_iff ..).mpr rfl)
        rcases hc with h | h
        · subst h
          rw [List.length_take]
          omega
        · refine ih ((a :: t).drop L) ?_ c h
          have hd := List.length_drop L (a :: t)
          have hc1 : (a :: t).length = t.length + 1 := List.length_cons a t
          omega

lemma forcedSliceGo_flatten (L : Nat) (hL : 0 < L) :
    ∀ fuel s, s.length ≤ fuel → (forcedSliceGo L fuel s).flatten = s := by
  intro fuel
  induction fuel with
  | zero =>
    intro s hs
    have : s = [] := List.length_eq_zero.mp (Nat.le_zero.mp hs)
    subst this
    rfl
  | succ f ih =>
    intro s hs
    match s with
    | [] => rfl
    | a :: t =>
      simp only [forcedSliceGo, List.flatten_cons]
      rw [ih ((a :: t).drop L) ?_, List.take_append_drop]
      have hd := List.length_drop L (a :: t)
      have hc1 : (a :: t).length = t.length + 1 := List.length_cons a t
      omega

lemma forcedSlice_length_le (L : Nat) (hL : 0 < L) (s : List Char) :
    ∀ c ∈ forcedSlice L s, c.length ≤ L :=
  forcedSliceGo_length_le L hL s.length s (Nat.le_refl _)

lemma sentenceLoop_length_le (L : Nat) (hL : 0 < L) :
    ∀ (ss : List (List Char)) (cur : List Char), cur.length ≤ L →
      ∀ c ∈ sentenceLoop L ss cur, c.length ≤ L := by
  intro ss
  induction ss with
  | nil =>
    intro cur hcur c hc
    simp only [sentenceLoop] at hc
    by_cases h : cur = []
    · simp [h] at hc
    · simp only [h, if_false, List.mem_singleton] at hc
      subst hc
      exact le_trans (pyStrip_length_le cur) hcur
  | cons s ss ih =>
    intro cur hcur c hc
    simp only [sentenceLoop] at hc
    by_cases h1 : s.length > L
    · simp only [h1, if_true, List.mem_append] at hc
      rcases hc with (hc | hc) | hc
      · by_cases h : cur = []
        · simp [h] at hc
        · simp only [h, if_false, List.mem_singleton] at hc
          subst hc
          exact le_trans (pyStrip_length_le cur) hcur
      · exact forcedSlice_length_le L hL s c hc
      · exact ih [] (by simp) c hc
    · simp only [h1, if_false] at hc
      by_cases h2 : (cur.length + s.length + 1 > L && !(cur = [])) = true
      · simp only [h2, if_true, List.mem_cons] at hc
        rcases hc with hc | hc
        · subst hc
          exact le_trans (pyStrip_length_le cur) hcur
        · exact ih s (by omega) c hc
      · simp only [h2, if_false] at hc
        by_cases h3 : cur = []
        · simp only [h3, if_true] at hc
          exact ih s (by omega) c hc
        · simp only [h3, if_false] at hc
          refine ih (cur ++ ' ' :: s) ?_ c hc
          have h2' : ¬(cur.length + s.length + 1 > L ∧ ¬(cur = [])) := by
            simpa [Bool.and_eq_true, Bool.not_eq_true', decide_eq_false_iff_not] using h2
          have hA : ¬(cur.length + s.length + 1 > L) := fun hA => h2' ⟨hA, h3⟩
          simp only [List.length_append, List.length_cons]
          omega

lemma splitParagraphBySentences_length_le (L : Nat) (hL : 0 < L) (p : List Char) :
    ∀ c ∈ splitParagraphBySentences p L, c.length ≤ L :=
  sentenceLoop_length_le L hL (reSplitSentences p) [] (by simp)

lemma paragraphLoop_length_le (L : Nat) (hL : 0 < L) :
    ∀ (ps : List (List Char)) (cur : List Char), cur.length ≤ L →
      ∀ c ∈ paragraphLoop L ps cur, c.length ≤ L := by
  intro ps
  induction ps with
  | nil =>
    intro cur hcur c hc
    simp only [paragraphLoop] at hc
    by_cases h : cur = []
    · simp [h] at hc
    · simp only [h, if_false, List.mem_singleton] at hc
      subst hc
      exact le_trans (pyStrip_length_le cur) hcur
  | cons p ps ih =>
    intro cur hcur c hc
    simp only [paragraphLoop] at hc
    by_cases h1 : p.length > L
    · simp only [h1, if_true, List.mem_append] at hc
      rcases hc with (hc | hc) | hc
      · by_cases h : cur = []
        · simp [h] at hc
        · simp only [h, if_false, List.mem_singleton] at hc
          subst hc
          exact le_trans (pyStrip_length_le cur) hcur
      · exact splitParagraphBySentences_length_le L hL p c hc
      · exact ih [] (by simp) c hc
    · simp only [h1, if_false] at hc
      by_cases h2 : (cur.length + p.length + 2 > L && !(cur = [])) = true
      · simp only [h2, if_true, List.mem_cons] at hc
        rcases hc with hc | hc
        · subst hc
          exact le_trans (pyStrip_length_le cur) hcur
        · exact ih p (by omega) c hc
      · simp only [h2, if_false] at hc
        by_cases h3 : cur = []
        · simp only [h3, if_true] at hc
          exact ih p (by omega) c hc
        · simp only [h3, if_false] at hc
          refine ih (cur ++ paraSep ++ p) ?_ c hc
          have h2' : ¬(cur.length + p.length + 2 > L ∧ ¬(cur = [])) := by
            simpa [Bool.and_eq_true, Bool.not_eq_true', decide_eq_false_iff_not] using h2
          have hA : ¬(cur.length + p.length + 2 > L) := fun hA => h2' ⟨hA, h3⟩
          simp only [List.length_append, paraSep, List.length_cons, List.length_nil]
          omega

/-- Claim C2: for every input text and every maximum length `L > 0`, the
Segmenter is total (it is a Lean function; empty input yields zero
chunks), every returned chunk has length at most `L`, and the forced
slicing applied to an atomic sentence longer than `L` cuts at exactly
`L`-character boundaries: every slice except possibly the last has
length exactly `L`, the slices concatenate back to the sentence, and
each slice has length at most `L`. -/
theorem segmenter_total_and_bounded (text : List Char) (L : Nat) (hL : 0 < L) :
    splitTextIntoChunks [] L = [] ∧
    (∀ c ∈ splitTextIntoChunks text L, c.length ≤ L) ∧
    (∀ s : List Char,
      (∀ c ∈ (forcedSlice L s).dropLast, c.length = L) ∧
      (forcedSlice L s).flatten = s ∧
      (∀ c ∈ forcedSlice L s, c.length ≤ L)) := by
  refine ⟨?_, ?_, ?_⟩
  · simp [splitTextIntoChunks, splitParas, paragraphLoop]
  · exact paragraphLoop_length_le L hL (splitParas text) [] (by simp)
  · intro s
    exact ⟨forcedSliceGo_dropLast_eq L hL s.length s (Nat.le_refl _),
      forcedSliceGo_flatten L hL s.length s (Nat.le_refl _),
      forcedSliceGo_length_le L hL s.length s (Nat.le_refl _)⟩

/-- Witness for `segmenter_total_and_bounded` at `L = 5` on the text
`"ab. cd! efghijkl"`. -/
theorem segmenter_total_and_bounded_witness :
    splitTextIntoChunks [] 5 = [] ∧
    (∀ c ∈ splitTextIntoChunks "ab. cd! efghijkl".data 5, c.length ≤ 5) ∧
    (∀ s : List Char,
      (∀ c ∈ (forcedSlice 5 s).dropLast, c.length = 5) ∧
      (forcedSlice 5 s).flatten = s ∧
      (∀ c ∈ forcedSlice 5 s, c.length ≤ 5)) :=
  segmenter_total_and_bounded "ab. cd! efghijkl".data 5 (by decide)

/-! ## Reassembly of the Segmenter's output (claim C1) -/

lemma intercalate_cons_cons (sep x y : List Char) (t : List (List Char)) :
    List.intercalate sep (x :: y :: t) = x ++ sep ++ List.intercalate sep (y :: t) := by
  simp [List.intercalate, List.intersperse_cons_cons, List.append_assoc]

lemma intercalate_singleton_chunk (sep x : List Char) :
    List.intercalate sep [x] = x := by
  simp [List.intercalate]

lemma intercalate_cons_of_ne_nil (sep x : List Char) {t : List (List Char)} (h : t ≠ []) :
    List.intercalate sep (x :: t) = x ++ sep ++ List.intercalate sep t := by
  match t with
  | [] => exact absurd rfl h
  | y :: t2 => exact intercalate_cons_cons sep x y t2

lemma intercalate_merge_head (sep a b : List Char) (t : List (List Char)) :
    List.intercalate sep ((a ++ sep ++ b) :: t) = List.intercalate sep (a :: b :: t) := by
  match t with
  | [] =>
    rw [intercalate_singleton_chunk, intercalate_cons_cons, intercalate_singleton_chunk]
  | c :: t2 =>
    rw [intercalate_cons_cons, intercalate_cons_cons, intercalate_cons_cons]
    simp [List.append_assoc]

lemma splitParas_ne_nil (s : List Char) : splitParas s ≠ [] := by
  induction s using splitParas.induct with
  | case1 => simp [splitParas]
  | case2 rest ih => rw [splitParas.eq_2]; simp
  | case3 c rest hnot hrest ih => exact absurd hrest ih
  | case4 c rest hnot p ps hps ih =>
    rw [splitParas.eq_3 c rest hnot, hps]
    simp

lemma intercalate_cons_head (sep : List Char) (c : Char) (p : List Char)
    (ps : List (List Char)) :
    List.intercalate sep ((c :: p) :: ps) = c :: List.intercalate sep (p :: ps) := by
  match ps with
  | [] => rw [intercalate_singleton_chunk, intercalate_singleton_chunk]
  | y :: t =>
    rw [intercalate_cons_cons, intercalate_cons_cons]
    simp [List.cons_append, List.append_assoc]

lemma intercalate_splitParas (s : List Char) :
    List.intercalate paraSep (splitParas s) = s := by
  induction s using splitParas.induct with
  | case1 => rfl
  | case2 rest ih =>
    rw [splitParas.eq_2, intercalate_cons_of_ne_nil paraSep [] (splitParas_ne_nil rest), ih]
    rfl
  | case3 c rest hnot hrest ih => exact absurd hrest (splitParas_ne_nil rest)
  | case4 c rest hnot p ps hps ih =>
    rw [splitParas.eq_3 c rest hnot, hps, intercalate_cons_head]
    rw [hps] at ih
    rw [ih]

lemma dropWhile_eq_self_of_head (p : Char → Bool) (l : List Char)
    (h : ∀ c, l.head? = some c → p c = false) : l.dropWhile p = l := by
  match l with
  | [] => rfl
  | c :: t =>
    rw [List.dropWhile_cons]
    simp [h c rfl]

lemma dropWhile_eq_self_head (p : Char → Bool) (l : List Char) (h : l.dropWhile p = l) :
    ∀ c, l.head? = some c → p c = false := by
  intro c hc
  match l with
  | [] => simp at hc
  | a :: t =>
    rw [List.head?_cons, Option.some.injEq] at hc
    subst hc
    by_contra htrue
    rw [Bool.not_eq_false] at htrue
    rw [List.dropWhile_cons] at h
    simp only [htrue, if_true] at h
    have h1 := length_dropWhile_le p t
    have h2 := congrArg List.length h
    simp only [List.length_cons] at h2
    omega

lemma dropWhile_eq_self_of_length (p : Char → Bool) (l : List Char)
    (h : (l.dropWhile p).length = l.length) : l.dropWhile p = l := by
  match l with
  | [] => rfl
  | a :: t =>
    by_cases hp : p a
    · exfalso
      rw [List.dropWhile_cons] at h
      simp only [hp, if_true, List.length_cons] at h
      have := length_dropWhile_le p t
      omega
    · rw [List.dropWhile_cons]
      simp [hp]

lemma pyStrip_stages (l : List Char) (hs : pyStrip l = l) :
    l.dropWhile isPySpace = l ∧ l.reverse.dropWhile isPySpace = l.reverse := by
  have hlen : (pyStrip l).length = l.length := by rw [hs]
  have h1 : (pyStrip l).length ≤ (l.dropWhile isPySpace).length := by
    unfold pyStrip
    rw [List.length_reverse]
    calc ((l.dropWhile isPySpace).reverse.dropWhile isPySpace).length
        ≤ (l.dropWhile isPySpace).reverse.length := length_dropWhile_le ..
      _ = (l.dropWhile isPySpace).length := List.length_reverse _
  have h2 : (l.dropWhile isPySpace).length ≤ l.length := length_dropWhile_le ..
  have hfirst : l.dropWhile isPySpace = l :=
    dropWhile_eq_self_of_length _ _ (by omega)
  refine ⟨hfirst, ?_⟩
  have hrw : pyStrip l = (l.reverse.dropWhile isPySpace).reverse := by
    unfold pyStrip
    rw [hfirst]
  rw [hrw] at hs
  have := congrArg List.reverse hs
  rwa [List.reverse_reverse] at this

lemma pyStrip_head_false (l : List Char) (hs : pyStrip l = l) :
    ∀ c, l.head? = some c → isPySpace c = false :=
  dropWhile_eq_self_head isPySpace l (pyStrip_stages l hs).1

lemma pyStrip_getLast_false (l : List Char) (hs : pyStrip l = l) :
    ∀ c, l.getLast? = some c → isPySpace c = false := by
  intro c hc
  refine dropWhile_eq_self_head isPySpace l.reverse (pyStrip_stages l hs).2 c ?_
  rw [List.head?_reverse]
  exact hc

lemma pyStrip_eq_self_of_ends (l : List Char)
    (hh : ∀ c, l.head? = some c → isPySpace c = false)
    (hl : ∀ c, l.getLast? = some c → isPySpace c = false) :
    pyStrip l = l := by
  unfold pyStrip
  rw [dropWhile_eq_self_of_head _ _ hh]
  rw [dropWhile_eq_self_of_head _ _ ?_, List.reverse_reverse]
  intro c hc
  rw [List.head?_reverse] at hc
  exact hl c hc

lemma pyStrip_append_stripped (cur p : List Char) (hc : cur ≠ [])
    (hcur : pyStrip cur = cur) (hpne : p ≠ []) (hp : pyStrip p = p) :
    pyStrip (cur ++ paraSep ++ p) = cur ++ paraSep ++ p := by
  apply pyStrip_eq_self_of_ends
  · intro c hch
    apply pyStrip_head_false cur hcur
    rw [List.append_assoc, List.head?_append_of_ne_nil _ hc] at hch
    exact hch
  · intro c hch
    apply pyStrip_getLast_false p hp
    rw [List.getLast?_append_of_ne_nil _ hpne] at hch
    exact hch

lemma paragraphLoop_ne_nil (L : Nat) :
    ∀ (ps : List (List Char)) (cur : List Char), cur ≠ [] → paragraphLoop L ps cur ≠ [] := by
  intro ps
  induction ps with
  | nil =>
    intro cur hc
    simp [paragraphLoop, hc]
  | cons p ps ih =>
    intro cur hc
    simp only [paragraphLoop]
    by_cases h1 : p.length > L
    · simp [h1, hc]
    · simp only [h1, if_false]
      rw [if_neg hc]
      split
      · simp
      · refine ih (cur ++ paraSep ++ p) ?_
        simp [hc]

lemma paragraphLoop_intercalate (L : Nat) :
    ∀ (ps : List (List Char)),
      (∀ p ∈ ps, p ≠ [] ∧ pyStrip p = p ∧ p.length ≤ L) →
      ∀ cur, cur ≠ [] → pyStrip cur = cur →
        List.intercalate paraSep (paragraphLoop L ps cur) =
          List.intercalate paraSep (cur :: ps) := by
  intro ps
  induction ps with
  | nil =>
    intro _ cur hc hcur
    simp only [paragraphLoop, hc, if_false, hcur]
  | cons p ps ih =>
    intro h cur hc hcur
    obtain ⟨hpne, hpstrip, hple⟩ := h p (List.mem_cons_self p ps)
    have htail : ∀ q ∈ ps, q ≠ [] ∧ pyStrip q = q ∧ q.length ≤ L :=
      fun q hq => h q (List.mem_cons_of_mem p hq)
    simp only [paragraphLoop]
    have h1 : ¬(p.length > L) := by omega
    simp only [h1, if_false]
    rw [if_neg hc]
    split
    · rw [hcur,
        intercalate_cons_of_ne_nil paraSep cur (paragraphLoop_ne_nil L ps p hpne),
        ih htail p hpne hpstrip, ← intercalate_cons_cons]
    · rw [ih htail (cur ++ paraSep ++ p) (by simp [hc])
        (pyStrip_append_stripped cur p hc hcur hpne hpstrip)]
      rw [intercalate_merge_head]

lemma paragraphLoop_intercalate_start (L : Nat) (ps : List (List Char))
    (h : ∀ p ∈ ps, p ≠ [] ∧ pyStrip p = p ∧ p.length ≤ L) :
    List.intercalate paraSep (paragraphLoop L ps []) = List.intercalate paraSep ps := by
  match ps with
  | [] => rfl
  | p :: ps =>
    obtain ⟨hpne, hpstrip, hple⟩ := h p (List.mem_cons_self p ps)
    have htail : ∀ q ∈ ps, q ≠ [] ∧ pyStrip q = q ∧ q.length ≤ L :=
      fun q hq => h q (List.mem_cons_of_mem p hq)
    simp only [paragraphLoop]
    have h1 : ¬(p.length > L) := by omega
    simp only [h1, if_false, decide_True, Bool.not_true, Bool.and_false,
      Bool.false_eq_true, if_false, if_true]
    exact paragraphLoop_intercalate L ps htail p hpne hpstrip

/-- Claim C1 (counterexample): for the text `"ab. cd. ef"` and maximum
length 5 the Segmenter returns the chunks `["ab cd", "ef"]`; the
sentence-level split has discarded the terminator of `"ab."` inside
the first chunk, so there exist no gap strings — let alone the
original separators — that can be reinserted between the chunks to
reproduce the input text.  This refutes the claim that concatenating
the chunks with the original separators reinserted reproduces the text
exactly. -/
theorem segmenter_reassembly_counterexample :
    splitTextIntoChunks "ab. cd. ef".data 5 = ["ab cd".data, "ef".data] ∧
    embedsWithGaps (splitTextIntoChunks "ab. cd. ef".data 5) "ab. cd. ef".data = false := by
  decide

/-- Claim C1 (amended): whenever every paragraph of the text (the parts
of `text.split('\n\n')`) is nonempty, whitespace-stripped and of length
at most `L`, concatenating the Segmenter's chunks with the original
paragraph separator `"\n\n"` reinserted between them reproduces the
text exactly.  In general the claim fails: when a paragraph exceeds
`L` the sentence-level split discards the sentence terminators and the
whitespace that follows them, and flushed chunks are stripped, so the
original text is not reproducible (see
`segmenter_reassembly_counterexample`). -/
theorem segmenter_paragraph_reassembly (text : List Char) (L : Nat)
    (h : ∀ p ∈ splitParas text, p ≠ [] ∧ pyStrip p = p ∧ p.length ≤ L) :
    List.intercalate paraSep (splitTextIntoChunks text L) = text := by
  rw [splitTextIntoChunks, paragraphLoop_intercalate_start L (splitParas text) h,
    intercalate_splitParas]

/-- Witness for `segmenter_paragraph_reassembly` on
`"ab\n\ncd ef\n\ngh"` with `L = 6`. -/
theorem segmenter_paragraph_reassembly_witness :
    List.intercalate paraSep (splitTextIntoChunks "ab\n\ncd ef\n\ngh".data 6) =
      "ab\n\ncd ef\n\ngh".data :=
  segmenter_paragraph_reassembly "ab\n\ncd ef\n\ngh".data 6 (by decide)

/-! ## The Retrying Remote Caller (claim C3) -/

lemma beginsWith_append (n : List Char) :
    ∀ s t, beginsWith n s = true → beginsWith n (s ++ t) = true := by
  induction n with
  | nil => intro s t _; rfl
  | cons a as ih =>
    intro s t h
    match s with
    | [] => simp [beginsWith] at h
    | b :: bs =>
      simp only [beginsWith, Bool.and_eq_true] at h
      simp only [List.cons_append, beginsWith, Bool.and_eq_true]
      exact ⟨h.1, ih bs t h.2⟩

lemma tails_nil_chars : List.tails ([] : List Char) = [[]] := rfl

lemma containsSub_nil_true (t : List Char) : containsSub [] t = true := by
  cases t with
  | nil => rfl
  | cons a t2 => simp [containsSub, List.tails_cons, beginsWith]

lemma containsSub_append_left (n : List Char) :
    ∀ h t, containsSub n h = true → containsSub n (h ++ t) = true := by
  intro h
  induction h with
  | nil =>
    intro t hc
    simp only [containsSub, tails_nil_chars, List.any_cons, List.any_nil,
      Bool.or_false] at hc
    match n with
    | [] => exact containsSub_nil_true t
    | a :: as => simp [beginsWith] at hc
  | cons a h2 ih =>
    intro t hc
    simp only [containsSub, List.tails_cons, List.any_cons, Bool.or_eq_true] at hc
    simp only [List.cons_append, containsSub, List.tails_cons, List.any_cons,
      Bool.or_eq_true]
    rcases hc with hc | hc
    · exact Or.inl (by simpa using beginsWith_append n (a :: h2) t hc)
    · exact Or.inr (ih t hc)

lemma containsSub_append_right (n t : List Char) :
    ∀ h, containsSub n t = true → containsSub n (h ++ t) = true := by
  intro h
  induction h with
  | nil => intro hc; exact hc
  | cons a h2 ih =>
    intro hc
    simp only [List.cons_append, containsSub, List.tails_cons, List.any_cons,
      Bool.or_eq_true]
    exact Or.inr (ih hc)

/-- An endpoint whose every attempt raises `httpx.ConnectError` — a
transient transport error whose message does not mention a timeout. -/
def connectErrorEndpoint : Nat → AttemptOutcome :=
  fun _ => AttemptOutcome.requestError "All connection attempts failed"

/-- Claim C3 (counterexample): against an endpoint all of whose
attempts fail with a transient transport error that is not a timeout
(`httpx.ConnectError`), `_translate_with_siliconflow` performs exactly
1 attempt — not its configured maximum of 3 — and fails with the plain
network-error message rather than the retries-exhausted one.  Only
`httpx.RequestError`s whose text mentions a timeout are retried. -/
theorem retry_transport_error_counterexample :
    translateWithSiliconflow connectErrorEndpoint true =
      (Except.error "网络请求失败: All connection attempts failed", 1) ∧
    (translateWithSiliconflow connectErrorEndpoint true).2 ≠ maxRetries :=
  ⟨rfl, by decide⟩

/-- Claim C3 (amended): when every attempt fails with a transient
transport error whose message indicates a timeout, the Retrying Remote
Caller performs exactly its configured maximum number of attempts
(`maxRetries = 3`) and then fails with the distinct retries-exhausted
message, which contains the number of attempts made. -/
theorem retry_timeout_exhaustion (att : Nat → AttemptOutcome) (msg : Nat → String)
    (hatt : ∀ i, i < maxRetries → att i = AttemptOutcome.requestError (msg i))
    (htimeout : ∀ i, i < maxRetries → isTimeoutMsg (msg i) = true) :
    (translateWithSiliconflow att true).2 = maxRetries ∧
    (translateWithSiliconflow att true).1 =
      Except.error ("网络请求失败，已重试" ++ toString maxRetries ++ "次: " ++ msg 2) ∧
    containsSub (toString maxRetries).data
      ("网络请求失败，已重试" ++ toString maxRetries ++ "次: " ++ msg 2).data = true := by
  have h0 := hatt 0 (by decide)
  have h1 := hatt 1 (by decide)
  have h2 := hatt 2 (by decide)
  have t0 := htimeout 0 (by decide)
  have t1 := htimeout 1 (by decide)
  have t2 := htimeout 2 (by decide)
  have hrun : translateWithSiliconflow att true =
      (Except.error ("网络请求失败，已重试" ++ toString maxRetries ++ "次: " ++ msg 2), 3) := by
    rw [translateWithSiliconflow]
    show siliconflowGo att true 3 0 0 = _
    rw [siliconflowGo, h0]
    simp only [t0]
    norm_num
    rw [siliconflowGo, h1]
    simp only [t1]
    norm_num
    rw [siliconflowGo, h2]
    simp only [t2]
    norm_num [maxRetries]
  refine ⟨by rw [hrun]; rfl, by rw [hrun], ?_⟩
  rw [String.data_append, String.data_append, String.data_append]
  have hin : containsSub (toString maxRetries).data
      ((toString maxRetries).data ++ ("次: ".data ++ (msg 2).data)) = true :=
    containsSub_append_left _ _ _ (by decide)
  exact containsSub_append_right _ _ "网络请求失败，已重试".data hin

/-- An endpoint whose every attempt raises `httpx.ReadTimeout`. -/
def timeoutEndpoint : Nat → AttemptOutcome :=
  fun _ => AttemptOutcome.requestError "ReadTimeout: request timed out"

/-- Witness for `retry_timeout_exhaustion` against an endpoint that
always times out. -/
theorem retry_timeout_exhaustion_witness :
    (translateWithSiliconflow timeoutEndpoint true).2 = maxRetries ∧
    (translateWithSiliconflow timeoutEndpoint true).1 =
      Except.error ("网络请求失败，已重试" ++ toString maxRetries ++ "次: " ++
        "ReadTimeout: request timed out") ∧
    containsSub (toString maxRetries).data
      ("网络请求失败，已重试" ++ toString maxRetries ++ "次: " ++
        "ReadTimeout: request timed out").data = true :=
  retry_timeout_exhaustion timeoutEndpoint (fun _ => "ReadTimeout: request timed out")
    (fun _ _ => rfl)
    (fun _ _ => show isTimeoutMsg "ReadTimeout: request timed out" = true by decide)

/-! ## Task progress and failure propagation (claims C4, C5) -/

lemma chain_append_le {l : List ℚ} (hl : List.Chain' (· ≤ ·) l) {x y : ℚ}
    (hx : l.getLast? = some x) (hxy : x ≤ y) :
    List.Chain' (· ≤ ·) (l ++ [y]) := by
  rw [List.chain'_append]
  refine ⟨hl, List.chain'_singleton y, ?_⟩
  intro a ha b hb
  simp only [List.head?_cons, Option.mem_def, Option.some.injEq] at hb
  rw [hx] at ha
  simp only [Option.mem_def, Option.some.injEq] at ha
  subst ha
  subst hb
  exact hxy

lemma chunkLoop_chain (net : Nat → Nat → AttemptOutcome) (n : Nat) :
    ∀ (chunks : List (List Char)) (i : Nat) (p : ℚ),
      i + chunks.length ≤ n → p ≤ (i : ℚ) / (n : ℚ) → 0 ≤ p →
      List.Chain' (· ≤ ·) (p :: (chunkLoop net n chunks i p).1) ∧
      (p :: (chunkLoop net n chunks i p).1).getLast? =
        some (chunkLoop net n chunks i p).2.1 ∧
      (chunkLoop net n chunks i p).2.1 ≤ 1 := by
  intro chunks
  induction chunks with
  | nil =>
    intro i p hi hp hp0
    simp only [chunkLoop]
    refine ⟨List.chain'_singleton p, rfl, ?_⟩
    by_cases hn : n = 0
    · subst hn
      simp only [Nat.cast_zero, div_zero] at hp
      linarith
    · have hn' : (0 : ℚ) < (n : ℚ) := by
        exact_mod_cast Nat.pos_of_ne_zero hn
      have hin : (i : ℚ) ≤ (n : ℚ) := by
        exact_mod_cast (by omega : i ≤ n)
      calc p ≤ (i : ℚ) / (n : ℚ) := hp
        _ ≤ 1 := by rw [div_le_one hn']; exact hin
  | cons c cs ih =>
    intro i p hi hp hp0
    have hn' : (0 : ℚ) < (n : ℚ) := by
      have : 0 < n := by
        simp only [List.length_cons] at hi
        omega
      exact_mod_cast this
    cases hres : translate (net i) true with
    | mk res m =>
      cases res with
      | error e =>
        simp only [chunkLoop, hres]
        refine ⟨List.chain'_singleton p, rfl, ?_⟩
        have hin : (i : ℚ) ≤ (n : ℚ) := by
          have : i ≤ n := by
            simp only [List.length_cons] at hi
            omega
          exact_mod_cast this
        calc p ≤ (i : ℚ) / (n : ℚ) := hp
          _ ≤ 1 := by rw [div_le_one hn']; exact hin
      | ok t =>
        have hstep : p ≤ ((i : ℚ) + 1) / (n : ℚ) := by
          refine le_trans hp ?_
          rw [div_le_div_iff_of_pos_right hn']
          linarith
        have hrec := ih (i + 1) (((i : ℚ) + 1) / (n : ℚ))
          (by simp only [List.length_cons] at hi; omega)
          (by push_cast; exact le_refl _)
          (by positivity)
        obtain ⟨hchain, hlast, hle⟩ := hrec
        simp only [chunkLoop, hres]
        refine ⟨List.Chain'.cons hstep hchain, ?_, hle⟩
        rw [List.getLast?_cons_cons]
        exact hlast

lemma segmentLoop_chain (synth : Nat → Except String Unit) (n : Nat) :
    ∀ (ss : List (List Char)) (i : Nat) (p : ℚ),
      i + ss.length ≤ n → p ≤ (i : ℚ) / (n : ℚ) * (4 / 5 : ℚ) → 0 ≤ p →
      List.Chain' (· ≤ ·) (p :: (segmentLoop synth n ss i p).1) ∧
      (p :: (segmentLoop synth n ss i p).1).getLast? =
        some (segmentLoop synth n ss i p).2.1 ∧
      (segmentLoop synth n ss i p).2.1 ≤ 1 := by
  intro ss
  induction ss with
  | nil =>
    intro i p hi hp hp0
    simp only [segmentLoop]
    refine ⟨List.chain'_singleton p, rfl, ?_⟩
    by_cases hn : n = 0
    · subst hn
      simp only [Nat.cast_zero, div_zero, zero_mul] at hp
      linarith
    · have hn' : (0 : ℚ) < (n : ℚ) := by
        exact_mod_cast Nat.pos_of_ne_zero hn
      have hin : (i : ℚ) / (n : ℚ) ≤ 1 := by
        rw [div_le_one hn']
        exact_mod_cast (by omega : i ≤ n)
      nlinarith
  | cons s ss ih =>
    intro i p hi hp hp0
    have hn' : (0 : ℚ) < (n : ℚ) := by
      have : 0 < n := by
        simp only [List.length_cons] at hi
        omega
      exact_mod_cast this
    cases hres : synth i with
    | error e =>
      simp only [segmentLoop, hres]
      refine ⟨List.chain'_singleton p, rfl, ?_⟩
      have hin : (i : ℚ) / (n : ℚ) ≤ 1 := by
        rw [div_le_one hn']
        exact_mod_cast (by simp only [List.length_cons] at hi; omega : i ≤ n)
      nlinarith
    | ok u =>
      have hstep : p ≤ ((i : ℚ) + 1) / (n : ℚ) * (4 / 5 : ℚ) := by
        refine le_trans hp ?_
        have : (i : ℚ) / (n : ℚ) ≤ ((i : ℚ) + 1) / (n : ℚ) := by
          rw [div_le_div_iff_of_pos_right hn']
          linarith
        nlinarith
      have hrec := ih (i + 1) (((i : ℚ) + 1) / (n : ℚ) * (4 / 5 : ℚ))
        (by simp only [List.length_cons] at hi; omega)
        (by push_cast; exact le_refl _)
        (by positivity)
      obtain ⟨hchain, hlast, hle⟩ := hrec
      simp only [segmentLoop, hres]
      refine ⟨List.Chain'.cons hstep hchain, ?_, hle⟩
      rw [List.getLast?_cons_cons]
      exact hlast

lemma taskStates_map_progress (ps : List ℚ) :
    (ps.map fun p => TaskState.mk TaskStatus.inProgress p none none).map
      TaskState.progress = ps := by
  induction ps with
  | nil => rfl
  | cons q qs ih => simp only [List.map_cons, ih]

lemma chain_two_append (ps : List ℚ) (fp pl : ℚ)
    (hchain : List.Chain' (· ≤ ·) (0 :: ps))
    (hlast : (0 :: ps).getLast? = some pl) (hfp : pl ≤ fp) :
    List.Chain' (· ≤ ·) (0 :: 0 :: (ps ++ [fp])) := by
  rw [List.chain'_cons]
  refine ⟨le_refl 0, ?_⟩
  rw [show (0 : ℚ) :: (ps ++ [fp]) = ((0 : ℚ) :: ps) ++ [fp] from rfl]
  exact chain_append_le hchain hlast hfp

lemma states_map_progress (ps : List ℚ) (fin : TaskState) :
    ((TaskState.mk TaskStatus.pending 0 none none ::
      TaskState.mk TaskStatus.inProgress 0 none none ::
      (ps.map (fun p => TaskState.mk TaskStatus.inProgress p none none) ++
        [fin]))).map TaskState.progress = 0 :: 0 :: (ps ++ [fin.progress]) := by
  simp only [List.map_cons, List.map_append, taskStates_map_progress, List.map_nil]

lemma mem_states_completed (ps : List ℚ) (fin : TaskState)
    (hfin : fin.status = TaskStatus.completed → fin.progress = 1) :
    ∀ s ∈ (TaskState.mk TaskStatus.pending 0 none none ::
      TaskState.mk TaskStatus.inProgress 0 none none ::
      (ps.map (fun p => TaskState.mk TaskStatus.inProgress p none none) ++ [fin])),
      s.status = TaskStatus.completed → s.progress = 1 := by
  intro s hs h
  rcases List.mem_cons.mp hs with rfl | hs2
  · simp at h
  rcases List.mem_cons.mp hs2 with rfl | hs3
  · simp at h
  rcases List.mem_append.mp hs3 with hmap | hfin2
  · obtain ⟨p2, _, rfl⟩ := List.mem_map.mp hmap
    simp at h
  · rw [List.mem_singleton] at hfin2
    subst hfin2
    exact hfin h

lemma processChapterTranslation_progress (content : List Char) (L : Nat)
    (net : Nat → Nat → AttemptOutcome) (saveError : Option String) :
    List.Chain' (· ≤ ·)
      ((processChapterTranslation content L net saveError).states.map
        TaskState.progress) ∧
    ∀ s ∈ (processChapterTranslation content L net saveError).states,
      s.status = TaskStatus.completed → s.progress = 1 := by
  have hmain := chunkLoop_chain net (splitTextIntoChunks content L).length
    (splitTextIntoChunks content L) 0 0 (by omega) (by simp) (le_refl 0)
  rcases hq : chunkLoop net (splitTextIntoChunks content L).length
    (splitTextIntoChunks content L) 0 0 with ⟨ps, pl, res, m⟩
  rw [hq] at hmain
  obtain ⟨hchain, hlast, hle⟩ := hmain
  dsimp only at hchain hlast hle
  cases res with
  | error e =>
    simp only [processChapterTranslation, hq]
    constructor
    · simp only [List.cons_append]
      rw [states_map_progress]
      exact chain_two_append ps pl pl hchain hlast (le_refl pl)
    · exact mem_states_completed ps _ (by intro h; simp at h)
  | ok texts =>
    cases saveError with
    | none =>
      simp only [processChapterTranslation, hq]
      constructor
      · simp only [List.cons_append]
        rw [states_map_progress]
        exact chain_two_append ps 1 pl hchain hlast hle
      · exact mem_states_completed ps _ (fun _ => rfl)
    | some e =>
      simp only [processChapterTranslation, hq]
      constructor
      · simp only [List.cons_append]
        rw [states_map_progress]
        exact chain_two_append ps pl pl hchain hlast (le_refl pl)
      · exact mem_states_completed ps _ (by intro h; simp at h)

lemma chain_three_zero (x : ℚ) (h : 0 ≤ x) :
    List.Chain' (· ≤ ·) [(0 : ℚ), 0, x] := by
  rw [List.chain'_cons, List.chain'_cons]
  exact ⟨le_refl 0, h, List.chain'_singleton x⟩

lemma mem_three_failed (a b fin : TaskState)
    (ha : a.status ≠ TaskStatus.completed) (hb : b.status ≠ TaskStatus.completed)
    (hfin : fin.status ≠ TaskStatus.completed) :
    ∀ s ∈ [a, b, fin], s.status = TaskStatus.completed → s.progress = 1 := by
  intro s hs h
  rcases List.mem_cons.mp hs with rfl | hs2
  · exact absurd h ha
  rcases List.mem_cons.mp hs2 with rfl | hs3
  · exact absurd h hb
  rw [List.mem_singleton] at hs3
  subst hs3
  exact absurd h hfin

lemma processChapterAudioGeneration_progress (chapterId : String)
    (translation : Option (List Char)) (synth : Nat → Except String Unit)
    (mergeError : Option String) :
    List.Chain' (· ≤ ·)
      ((processChapterAudioGeneration chapterId translation synth mergeError).map
        TaskState.progress) ∧
    ∀ s ∈ processChapterAudioGeneration chapterId translation synth mergeError,
      s.status = TaskStatus.completed → s.progress = 1 := by
  cases translation with
  | none =>
    simp only [processChapterAudioGeneration, List.cons_append, List.nil_append]
    exact ⟨chain_three_zero 0 (le_refl 0),
      mem_three_failed _ _ _ (by simp) (by simp) (by simp)⟩
  | some content =>
    by_cases hstrip : pyStrip content = []
    · simp only [processChapterAudioGeneration, hstrip, if_pos rfl, List.cons_append,
        List.nil_append]
      exact ⟨chain_three_zero 0 (le_refl 0),
        mem_three_failed _ _ _ (by simp) (by simp) (by simp)⟩
    · have hmain := segmentLoop_chain synth (splitTextForTts content).length
        (splitTextForTts content) 0 0 (by omega) (by simp) (le_refl 0)
      rcases hq : segmentLoop synth (splitTextForTts content).length
        (splitTextForTts content) 0 0 with ⟨ps, pl, err, m⟩
      rw [hq] at hmain
      obtain ⟨hchain, hlast, hle⟩ := hmain
      dsimp only at hchain hlast hle
      cases err with
      | some e =>
        simp only [processChapterAudioGeneration, hstrip, if_false, hq,
          List.cons_append, List.nil_append, List.append_assoc]
        constructor
        · rw [states_map_progress]
          exact chain_two_append ps pl pl hchain hlast (le_refl pl)
        · exact mem_states_completed ps _ (by intro h; simp at h)
      | none =>
        cases mergeError with
        | some e =>
          simp only [processChapterAudioGeneration, hstrip, if_false, hq,
            List.cons_append, List.nil_append, List.append_assoc]
          constructor
          · rw [states_map_progress]
            exact chain_two_append ps pl pl hchain hlast (le_refl pl)
          · exact mem_states_completed ps _ (by intro h; simp at h)
        | none =>
          simp only [processChapterAudioGeneration, hstrip, if_false, hq,
            List.cons_append, List.nil_append, List.append_assoc]
          constructor
          · rw [states_map_progress]
            exact chain_two_append ps 1 pl hchain hlast hle
          · exact mem_states_completed ps _ (fun _ => rfl)

/-- An endpoint whose every attempt succeeds with the translated
content 你好. -/
def okContentEndpoint : Nat → Nat → AttemptOutcome :=
  fun _ _ => AttemptOutcome.response 200 (RespBody.content "你好".data) ""

lemma processChapterTranslation_example :
    processChapterTranslation "a".data 5 okContentEndpoint none =
      JobTrace.mk
        [TaskState.mk TaskStatus.pending 0 none none,
         TaskState.mk TaskStatus.inProgress 0 none none,
         TaskState.mk TaskStatus.inProgress 1 none none,
         TaskState.mk TaskStatus.completed 1 none (some ())]
        (some "你好".data) 1 := by
  have h1 : splitTextIntoChunks "a".data 5 = [['a']] := by decide
  have h2 : translate (okContentEndpoint 0) true = (Except.ok "你好".data, 1) := rfl
  simp only [processChapterTranslation, h1, chunkLoop, h2, List.length_cons,
    List.length_nil, intercalate_singleton_chunk]
  norm_num
  simp [Except.map, intercalate_singleton_chunk]

/-- Claim C4 (counterexample): translating a one-chunk chapter whose
only chunk succeeds, the task record's third snapshot — written by the
chunk loop after the final chunk, before the translation is persisted —
has progress exactly 1.0 while the status is still InProgress.  This
refutes the claim that progress equals 1.0 only when the task is
Completed. -/
theorem progress_one_while_in_progress_counterexample :
    (processChapterTranslation "a".data 5 okContentEndpoint none).states.get? 2 =
      some (TaskState.mk TaskStatus.inProgress 1 none none) ∧
    TaskStatus.inProgress ≠ TaskStatus.completed := by
  refine ⟨?_, by decide⟩
  rw [processChapterTranslation_example]
  rfl

/-- Claim C4 (amended): within a single chapter job — translation or
audio generation — the task's progress is monotonically non-decreasing
across the job's recorded snapshots, and whenever the task is
Completed its progress is exactly 1.0.  The converse direction of the
original claim fails: progress reaches 1.0 while the task is still
InProgress, between the final chunk's completion and persistence (and
a persistence failure then yields a Failed task with progress 1.0);
see `progress_one_while_in_progress_counterexample`. -/
theorem task_progress_monotone (content : List Char) (L : Nat)
    (net : Nat → Nat → AttemptOutcome) (saveError : Option String)
    (chapterId : String) (translation : Option (List Char))
    (synth : Nat → Except String Unit) (mergeError : Option String) :
    (List.Chain' (· ≤ ·)
        ((processChapterTranslation content L net saveError).states.map
          TaskState.progress) ∧
      ∀ s ∈ (processChapterTranslation content L net saveError).states,
        s.status = TaskStatus.completed → s.progress = 1) ∧
    (List.Chain' (· ≤ ·)
        ((processChapterAudioGeneration chapterId translation synth mergeError).map
          TaskState.progress) ∧
      ∀ s ∈ processChapterAudioGeneration chapterId translation synth mergeError,
        s.status = TaskStatus.completed → s.progress = 1) :=
  ⟨processChapterTranslation_progress content L net saveError,
   processChapterAudioGeneration_progress chapterId translation synth mergeError⟩

/-- Witness for `task_progress_monotone`: the Completed final snapshot
of a successful one-chunk translation job has progress 1. -/
theorem task_progress_monotone_witness :
    (TaskState.mk TaskStatus.completed 1 none (some ())).progress = 1 :=
  (task_progress_monotone "a".data 5 okContentEndpoint none "ch1" none
      (fun _ => Except.ok ()) none).1.2
    (TaskState.mk TaskStatus.completed 1 none (some ()))
    (by rw [processChapterTranslation_example]; simp) rfl

lemma chunkLoop_fail (net : Nat → Nat → AttemptOutcome) (n : Nat) (msg : String) :
    ∀ (chunks : List (List Char)) (k i : Nat) (p : ℚ),
      k < chunks.length →
      (∀ j, j < k → ∃ t, (translate (net (i + j)) true).1 = Except.ok t) →
      (translate (net (i + k)) true).1 = Except.error msg →
      (chunkLoop net n chunks i p).2.2.1 = Except.error msg ∧
      (chunkLoop net n chunks i p).2.2.2 = k + 1 ∧
      (chunkLoop net n chunks i p).2.1 =
        (if k = 0 then p else ((i : ℚ) + (k : ℚ)) / (n : ℚ)) := by
  intro chunks
  induction chunks with
  | nil =>
    intro k i p hk _ _
    simp at hk
  | cons c cs ih =>
    intro k i p hk hok hfail
    cases k with
    | zero =>
      rcases hres : translate (net i) true with ⟨res, m2⟩
      have : res = Except.error msg := by
        have := hfail
        rw [Nat.add_zero, hres] at this
        exact this
      subst this
      simp only [chunkLoop, hres, if_pos rfl]
      exact ⟨trivial, trivial, by simp⟩
    | succ k2 =>
      obtain ⟨t, ht⟩ := hok 0 (Nat.succ_pos k2)
      rcases hres : translate (net i) true with ⟨res, m2⟩
      have : res = Except.ok t := by
        have := ht
        rw [Nat.add_zero, hres] at this
        exact this
      subst this
      have hok2 : ∀ j, j < k2 → ∃ t2, (translate (net (i + 1 + j)) true).1 = Except.ok t2 := by
        intro j hj
        have := hok (j + 1) (by omega)
        rwa [show i + (j + 1) = i + 1 + j by omega] at this
      have hfail2 : (translate (net (i + 1 + k2)) true).1 = Except.error msg := by
        rwa [show i + (k2 + 1) = i + 1 + k2 by omega] at hfail
      have hrec := ih k2 (i + 1) (((i : ℚ) + 1) / (n : ℚ))
        (by simp only [List.length_cons] at hk; omega) hok2 hfail2
      obtain ⟨he, hm, hp⟩ := hrec
      simp only [chunkLoop, hres]
      refine ⟨?_, ?_, ?_⟩
      · simp only [he, Except.map]
      · simp only [hm]
      · rw [hp]
        by_cases hk2 : k2 = 0
        · subst hk2
          simp only [if_pos rfl, if_neg (by omega : ¬(0 + 1 = 0))]
          push_cast
          ring_nf
        · rw [if_neg hk2, if_neg (by omega : ¬(k2 + 1 = 0))]
          push_cast
          ring_nf

/-- Claim C5: if chunk `k`'s remote translation fails while every
earlier chunk succeeded, the chapter-translation orchestrator performs
exactly `k + 1` chunk calls (all remaining chunks are aborted),
persists nothing to the translation sink, and its final task snapshot
is Failed carrying the triggering error message (the failure is
recorded on the task record — the trace function returns normally —
rather than being raised to the caller of `translate_chapter`). -/
theorem chunk_failure_aborts (content : List Char) (L : Nat)
    (net : Nat → Nat → AttemptOutcome) (saveError : Option String)
    (k : Nat) (msg : String)
    (hk : k < (splitTextIntoChunks content L).length)
    (hok : ∀ j, j < k → ∃ t, (translate (net j) true).1 = Except.ok t)
    (hfail : (translate (net k) true).1 = Except.error msg) :
    (processChapterTranslation content L net saveError).calls = k + 1 ∧
    (processChapterTranslation content L net saveError).saved = none ∧
    (processChapterTranslation content L net saveError).states.getLast? =
      some (TaskState.mk TaskStatus.failed
        ((k : ℚ) / ((splitTextIntoChunks content L).length : ℚ)) (some msg) (some ())) := by
  have hok0 : ∀ j, j < k → ∃ t, (translate (net (0 + j)) true).1 = Except.ok t := by
    intro j hj
    rw [Nat.zero_add]
    exact hok j hj
  have hfail0 : (translate (net (0 + k)) true).1 = Except.error msg := by
    rw [Nat.zero_add]
    exact hfail
  have hmain := chunkLoop_fail net (splitTextIntoChunks content L).length msg
    (splitTextIntoChunks content L) k 0 0 hk hok0 hfail0
  rcases hq : chunkLoop net (splitTextIntoChunks content L).length
    (splitTextIntoChunks content L) 0 0 with ⟨ps, pl, res, m⟩
  rw [hq] at hmain
  obtain ⟨he, hm, hp⟩ := hmain
  dsimp only at he hm hp
  subst he
  simp only [processChapterTranslation, hq]
  refine ⟨by rw [hm], trivial, ?_⟩
  rw [List.getLast?_concat]
  have hpl : pl = (k : ℚ) / ((splitTextIntoChunks content L).length : ℚ) := by
    rw [hp]
    by_cases hk0 : k = 0
    · subst hk0
      simp
    · rw [if_neg hk0]
      push_cast
      ring_nf
  rw [hpl]

/-- An endpoint whose first chunk call fails with a non-retryable
transport error. -/
def failFirstEndpoint : Nat → Nat → AttemptOutcome :=
  fun _ _ => AttemptOutcome.requestError "boom"

/-- Witness for `chunk_failure_aborts`: a one-chunk chapter whose only
chunk fails on its first attempt. -/
theorem chunk_failure_aborts_witness :
    (processChapterTranslation "ab".data 5 failFirstEndpoint none).calls = 0 + 1 ∧
    (processChapterTranslation "ab".data 5 failFirstEndpoint none).saved = none ∧
    (processChapterTranslation "ab".data 5 failFirstEndpoint none).states.getLast? =
      some (TaskState.mk TaskStatus.failed
        (((0 : Nat) : ℚ) / (((splitTextIntoChunks "ab".data 5).length : Nat) : ℚ))
        (some "翻译失败: 网络请求失败: boom") (some ())) :=
  chunk_failure_aborts "ab".data 5 failFirstEndpoint none 0 "翻译失败: 网络请求失败: boom"
    (by decide) (fun j hj => absurd hj (by omega)) rfl

/-! ## Completion timestamps (claim C8) -/

/-- Claim C8: evaluation of both orchestrators at a failing input.  A
chapter-audio job whose first synthesis call fails ends in a Failed
snapshot whose completion timestamp is unset (`completedAt = none`) —
the failure handler of `_process_chapter_audio_generation` sets only
`status` and `error_message` — whereas a failing chapter-translation
job ends Failed with the completion timestamp set (`some ()`), as the
claim requires for every terminal state. -/
theorem audio_failed_completed_at_unset :
    processChapterAudioGeneration "ch1" (some "早。".data)
        (fun _ => Except.error "TTS合成失败: boom") none =
      [TaskState.mk TaskStatus.pending 0 none none,
       TaskState.mk TaskStatus.inProgress 0 none none,
       TaskState.mk TaskStatus.failed 0 (some "TTS合成失败: boom") none] ∧
    (processChapterTranslation "ab".data 5 failFirstEndpoint none).states.getLast? =
      some (TaskState.mk TaskStatus.failed 0
        (some "翻译失败: 网络请求失败: boom") (some ())) :=
  ⟨rfl, rfl⟩

/-! ## Book-level audio merge (claim C6) -/

/-- Claim C6 (counterexample): merging three chapters of 10 s, 8 s and
12 s (10000, 8000, 12000 ms) yields a merged artifact of exactly
10+2+8+2+12 = 34 seconds, but `merge_book_audio` persists
`total_duration = 30000` ms in the book metadata — the bare sum of the
constituent durations, without the two inserted 2-second silences — so
the recorded total does not equal the artifact's duration as the claim
asserts. -/
theorem merge_metadata_counterexample :
    mergeBookAudio [("c1", some 10000), ("c2", some 8000), ("c3", some 12000)] =
      Except.ok (34000, 30000) ∧ (30000 : Nat) ≠ 34000 :=
  ⟨rfl, by decide⟩

lemma collectChapterAudio_ok (chapters : List (String × Option Nat)) :
    ∀ ds : List Nat, chapters.map Prod.snd = ds.map some →
      collectChapterAudio chapters = Except.ok (ds, ds.sum) := by
  induction chapters with
  | nil =>
    intro ds h
    simp only [List.map_nil] at h
    have : ds = [] := by
      cases ds with
      | nil => rfl
      | cons d ds2 => simp at h
    subst this
    rfl
  | cons c rest ih =>
    intro ds h
    cases ds with
    | nil => simp at h
    | cons d ds2 =>
      simp only [List.map_cons, List.cons.injEq] at h
      obtain ⟨h1, h2⟩ := h
      rcases c with ⟨cid, o⟩
      simp only at h1
      subst h1
      simp only [collectChapterAudio, ih ds2 h2, List.sum_cons]
      rw [Nat.add_comm ds2.sum d]

lemma mergeFold (rest : List Nat) :
    ∀ a : Nat, rest.foldl (fun acc di => acc + 2000 + di) a =
      a + rest.sum + 2000 * rest.length := by
  induction rest with
  | nil => intro a; simp
  | cons d rest ih =>
    intro a
    simp only [List.foldl_cons, ih, List.sum_cons, List.length_cons]
    ring

/-- Claim C6 (amended): for a book-level merge of chapters whose audio
artifacts all exist with durations `ds` (in ms), the merged artifact's
duration is exactly the sum of the constituent durations plus one
2000 ms silence between each consecutive pair, i.e.
`ds.sum + 2000 * (ds.length - 1)`; the `total_duration` persisted in
the book metadata, however, is the bare sum `ds.sum`, excluding the
inserted silences (see `merge_metadata_counterexample`). -/
theorem merge_durations (chapters : List (String × Option Nat)) (ds : List Nat)
    (h : chapters.map Prod.snd = ds.map some) (hne : ds ≠ []) :
    mergeBookAudio chapters =
      Except.ok (ds.sum + 2000 * (ds.length - 1), ds.sum) := by
  rw [mergeBookAudio, collectChapterAudio_ok chapters ds h]
  cases ds with
  | nil => exact absurd rfl hne
  | cons d rest =>
    simp only [mergeMultipleAudioFiles, mergeFold, List.sum_cons, List.length_cons,
      Nat.add_sub_cancel]

/-- Witness for `merge_durations` at three chapters of 10, 8 and 12
seconds. -/
theorem merge_durations_witness :
    mergeBookAudio [("c1", some 10000), ("c2", some 8000), ("c3", some 12000)] =
      Except.ok ([10000, 8000, 12000].sum + 2000 * ([10000, 8000, 12000].length - 1),
        [10000, 8000, 12000].sum) :=
  merge_durations [("c1", some 10000), ("c2", some 8000), ("c3", some 12000)]
    [10000, 8000, 12000] rfl (by decide)

/-! ## Registry cleanup (claim C7) -/

lemma cleanupCompletedTasks_eq (now maxAgeHours : ℚ) :
    ∀ tasks : List RegTask,
      cleanupCompletedTasks now maxAgeHours tasks =
        (tasks.filter (fun t => !removable now maxAgeHours t),
         tasks.countP (removable now maxAgeHours)) := by
  intro tasks
  induction tasks with
  | nil => rfl
  | cons t ts ih =>
    simp only [cleanupCompletedTasks, ih, List.filter_cons, List.countP_cons]
    by_cases hr : removable now maxAgeHours t = true
    · simp [hr]
    · rw [Bool.not_eq_true] at hr
      simp [hr]

lemma nonterminal_not_removable (now maxAgeHours : ℚ) (t : RegTask)
    (h : t.status = TaskStatus.pending ∨ t.status = TaskStatus.inProgress) :
    removable now maxAgeHours t = false := by
  rcases h with h | h <;>
    simp [removable, h]

/-- Claim C7 (spec-modelled): for every threshold, the registry's
cleanup keeps exactly the tasks that are not (terminal and older than
the threshold measured from completion time), returns the count of
removed tasks, and never removes a Pending or InProgress task
regardless of age.  `cleanup_completed_tasks` is invoked by the
`/tasks/cleanup` endpoint but absent from the service source, so the
operation is modelled from the specification (`cleanupCompletedTasks`). -/
theorem cleanup_removes_terminal (now maxAgeHours : ℚ) (tasks : List RegTask) :
    (∀ t, t ∈ (cleanupCompletedTasks now maxAgeHours tasks).1 ↔
      t ∈ tasks ∧ removable now maxAgeHours t = false) ∧
    (cleanupCompletedTasks now maxAgeHours tasks).2 =
      tasks.countP (removable now maxAgeHours) ∧
    ∀ t ∈ tasks, (t.status = TaskStatus.pending ∨ t.status = TaskStatus.inProgress) →
      t ∈ (cleanupCompletedTasks now maxAgeHours tasks).1 := by
  rw [cleanupCompletedTasks_eq]
  refine ⟨?_, rfl, ?_⟩
  · intro t
    rw [List.mem_filter]
    constructor
    · rintro ⟨h1, h2⟩
      rw [Bool.not_eq_true'] at h2
      exact ⟨h1, h2⟩
    · rintro ⟨h1, h2⟩
      refine ⟨h1, ?_⟩
      rw [h2]
      rfl
  · intro t ht hstat
    rw [List.mem_filter]
    refine ⟨ht, ?_⟩
    rw [nonterminal_not_removable now maxAgeHours t hstat]
    rfl

/-- Witness for `cleanup_removes_terminal`: with `maxAgeHours = 0` at
time 100, an arbitrarily old Pending task survives cleanup while an
old Completed task is counted as removed. -/
theorem cleanup_removes_terminal_witness :
    RegTask.mk TaskStatus.pending none ∈
      (cleanupCompletedTasks 100 0
        [RegTask.mk TaskStatus.pending none,
         RegTask.mk TaskStatus.completed (some 10)]).1 ∧
    (cleanupCompletedTasks 100 0
      [RegTask.mk TaskStatus.pending none,
       RegTask.mk TaskStatus.completed (some 10)]).2 =
      [RegTask.mk TaskStatus.pending none,
       RegTask.mk TaskStatus.completed (some 10)].countP (removable 100 0) :=
  ⟨(cleanup_removes_terminal 100 0
      [RegTask.mk TaskStatus.pending none,
       RegTask.mk TaskStatus.completed (some 10)]).2.2
    (RegTask.mk TaskStatus.pending none) (by simp) (Or.inl rfl),
   (cleanup_removes_terminal 100 0
      [RegTask.mk TaskStatus.pending none,
       RegTask.mk TaskStatus.completed (some 10)]).2.1⟩

/-! ## Digit normalization of translated chunks (claim C9) -/

/-- Claim C9 (counterexample): the transform converts the standalone
integer 10000 digit by digit, to 一零零零零, whereas its Chinese
place-value expansion is 一万; integers of five or more digits are not
expanded by place value as the claim states. -/
theorem number_conversion_counterexample :
    convertNumbersToChinese "10000".data = "一零零零零".data ∧
    chinesePlaceValueSpec 10000 = "一万".data ∧
    ("一零零零零".data : List Char) ≠ "一万".data :=
  ⟨rfl, rfl, by decide⟩

lemma chunkLoop_all_ok (net : Nat → Nat → AttemptOutcome) (n : Nat) (g : Nat → List Char)
    (htr : ∀ j, (translate (net j) true).1 = Except.ok (g j)) :
    ∀ (chunks : List (List Char)) (i : Nat) (p : ℚ),
      (chunkLoop net n chunks i p).2.2.1 =
        Except.ok ((List.range' i chunks.length).map g) ∧
      (chunkLoop net n chunks i p).2.2.2 = chunks.length := by
  intro chunks
  induction chunks with
  | nil => intro i p; exact ⟨rfl, rfl⟩
  | cons c cs ih =>
    intro i p
    rcases hres : translate (net i) true with ⟨res, m2⟩
    have hok : res = Except.ok (g i) := by
      have := htr i
      rw [hres] at this
      exact this
    subst hok
    obtain ⟨h1, h2⟩ := ih (i + 1) (((i : ℚ) + 1) / (n : ℚ))
    simp only [chunkLoop, hres]
    constructor
    · simp only [h1, Except.map, List.length_cons, List.range'_succ, List.map_cons]
    · simp only [h2, List.length_cons]

set_option maxRecDepth 100000 in
set_option maxHeartbeats 4000000 in
/-- Claim C9 (amended): when every chunk's remote call succeeds with
raw content `raw j`, the persisted chapter text is exactly the
paragraph-separated concatenation of the per-chunk digit-normalized
texts `convertNumbersToChinese (pyStrip (raw j))` — the transform is
applied to each chunk individually, before concatenation.  The
expansion rules: standalone integers below 1000 follow the Chinese
place-value expansion except 10, which the code renders 一十 instead
of 十; 4-digit integers are converted digit by digit; integers of five
or more digits are also converted digit by digit (whereas the claim
asserts place value; see `number_conversion_counterexample`); decimals
become integer part, 点, then the decimal digits one by one
(2.1 → 二点一); dotted version numbers become their components'
expansions joined by 点 (1.5.2 → 一点五点二). -/
theorem digit_normalization_per_chunk (content : List Char) (L : Nat)
    (net : Nat → Nat → AttemptOutcome) (raw : Nat → List Char)
    (hnet : ∀ j, net j 0 = AttemptOutcome.response 200 (RespBody.content (raw j)) "")
    (hne : ∀ j, pyStrip (raw j) ≠ []) :
    (processChapterTranslation content L net none).saved =
      some (List.intercalate paraSep
        ((List.range' 0 (splitTextIntoChunks content L).length).map
          (fun j => convertNumbersToChinese (pyStrip (raw j))))) ∧
    (∀ m : Nat, m < 1000 → m ≠ 10 →
      convertIntegerToChinese (Nat.toDigits 10 m) = chinesePlaceValueSpec m) ∧
    convertIntegerToChinese (Nat.toDigits 10 10) = "一十".data ∧
    (∀ s : List Char, s ≠ [] → s.all Char.isDigit = true → s.length = 4 →
      convertIntegerToChinese s = s.map digitChar) ∧
    convertNumbersToChinese "2.1".data = "二点一".data ∧
    convertNumbersToChinese "1.5.2".data = "一点五点二".data ∧
    convertNumbersToChinese "Chapter 2.1".data = "Chapter 二点一".data := by
  have htr : ∀ j, (translate (net j) true).1 =
      Except.ok (convertNumbersToChinese (pyStrip (raw j))) := by
    intro j
    have hstep : translateWithSiliconflow (net j) true =
        (Except.ok (convertNumbersToChinese (pyStrip (raw j))), 1) := by
      rw [translateWithSiliconflow]
      show siliconflowGo (net j) true 3 0 0 = _
      rw [siliconflowGo, hnet j]
      simp only [ne_eq, not_true_eq_false, if_false, if_neg (hne j), if_true,
        reduceCtorEq, if_neg (by omega : ¬(200 ≠ 200))]
    rw [translate, hstep]
  have hloop := chunkLoop_all_ok net (splitTextIntoChunks content L).length
    (fun j => convertNumbersToChinese (pyStrip (raw j))) htr
    (splitTextIntoChunks content L) 0 0
  rcases hq : chunkLoop net (splitTextIntoChunks content L).length
    (splitTextIntoChunks content L) 0 0 with ⟨ps, pl, res, m⟩
  rw [hq] at hloop
  obtain ⟨h1, _⟩ := hloop
  dsimp only at h1
  subst h1
  refine ⟨?_, ?_, rfl, ?_, rfl, rfl, rfl⟩
  · simp only [processChapterTranslation, hq]
  · intro m hm hm10
    revert hm10
    revert m
    decide
  · intro s hs hd hl
    unfold convertIntegerToChinese
    rw [if_neg (by simp [hs, hd]), if_pos hl]

/-- An endpoint whose every reply is the raw content `"Chapter 2.1"`. -/
def chapterRawEndpoint : Nat → Nat → AttemptOutcome :=
  fun _ _ => AttemptOutcome.response 200 (RespBody.content "Chapter 2.1".data) ""

/-- Witness for `digit_normalization_per_chunk` on a one-chunk chapter
whose remote reply is `"Chapter 2.1"`. -/
theorem digit_normalization_per_chunk_witness :
    (processChapterTranslation "a".data 5 chapterRawEndpoint none).saved =
      some (List.intercalate paraSep
        ((List.range' 0 (splitTextIntoChunks "a".data 5).length).map
          (fun j => convertNumbersToChinese (pyStrip ((fun _ : Nat => "Chapter 2.1".data) j))))) ∧
    (∀ m : Nat, m < 1000 → m ≠ 10 →
      convertIntegerToChinese (Nat.toDigits 10 m) = chinesePlaceValueSpec m) ∧
    convertIntegerToChinese (Nat.toDigits 10 10) = "一十".data ∧
    (∀ s : List Char, s ≠ [] → s.all Char.isDigit = true → s.length = 4 →
      convertIntegerToChinese s = s.map digitChar) ∧
    convertNumbersToChinese "2.1".data = "二点一".data ∧
    convertNumbersToChinese "1.5.2".data = "一点五点二".data ∧
    convertNumbersToChinese "Chapter 2.1".data = "Chapter 二点一".data :=
  digit_normalization_per_chunk "a".data 5 chapterRawEndpoint
    (fun _ => "Chapter 2.1".data) (fun _ => rfl)
    (fun _ => show pyStrip "Chapter 2.1".data ≠ [] by decide)

/-! ## Failure cleanup of `text_to_speech` (claim C10) -/

/-- Claim C10: whenever a `text_to_speech` call fails — synthesis
error before or after the output file was written, or no provider
configured — the generated output path does not exist in the resulting
file system: the failure handler deletes the partially written file
before re-raising. -/
theorem tts_failure_cleanup (provider : TtsProvider) (behavior : SynthBehavior)
    (fs : List String) (audioPath : String) (e : String)
    (herr : (textToSpeech provider behavior fs audioPath).1 = Except.error e) :
    audioPath ∉ (textToSpeech provider behavior fs audioPath).2 := by
  cases provider <;> cases behavior <;>
    simp_all [textToSpeech, fsRemove, List.mem_filter]

/-- Witness for `tts_failure_cleanup`: an f5tts synthesis that fails
after writing a partial file leaves no file at the output path. -/
theorem tts_failure_cleanup_witness :
    "out.wav" ∉ (textToSpeech TtsProvider.f5tts (SynthBehavior.failAfterWrite "boom")
      ["out.wav", "other.wav"] "out.wav").2 :=
  tts_failure_cleanup TtsProvider.f5tts (SynthBehavior.failAfterWrite "boom")
    ["out.wav", "other.wav"] "out.wav" "TTS合成失败: boom" rfl

end AudioBook
